import Mathlib

/-!
Shallow embedding of the `redirecterrors` traefik middleware
(`redirecterrors.go`) together with a verification of its behavioural
specification.

The Go file under verification defines the `Config`, `New` constructor and
`RedirectErrors.ServeHTTP`.  Two helpers it uses — `NewHTTPCodeRanges`
(status-range parsing / `Contains`) and `newCodeCatcher` (the response
capture object) — live in a file of the repository that is not part of the
sources given here; those two components are modelled from the spec
(sections 4.1 and 4.2) and are marked `Modelled from the spec:` below.
Everything else is translated from `redirecterrors.go` and from the
documented semantics of the Go standard library functions it calls
(`net/http` header maps and `ResponseWriter`, `net/url.QueryEscape`,
`strings.ReplaceAll`, `strconv.Atoi`/`Itoa`, `net/textproto` header-key
canonicalisation, `http.Error`).

Machine integers: HTTP status codes are Go `int`s and are embedded as `Int`
(no arithmetic anywhere near overflow).  Compiled regular expressions are
embedded as their matching functions `String → Bool`; `regexp.Compile` is
an oracle parameter `String → Option (String → Bool)` (`none` = the
pattern does not compile), since the claims quantify over the behaviour of
compiled patterns and never over regex syntax itself.
-/

/-! ## Header-key canonicalisation (net/textproto CanonicalMIMEHeaderKey) -/

/-- Valid characters of a MIME header token, per net/textproto
`validHeaderFieldByte`: ASCII letters, digits, and the listed punctuation
(the set also holds the apostrophe, code 39, and the backquote, code 96). -/
def isTokenChar (c : Char) : Bool :=
  c.isAlphanum ||
  c ∈ ['!', '#', '$', '%', '&', '*', '+', '-', '.', '^', '_', '|', '~'] ||
  c.toNat == 39 || c.toNat == 96

/-- Case-fold a list of characters the way Go canonicalises header keys:
upper-case at the start and after each dash, lower-case elsewhere. -/
def canonicalList : Bool → List Char → List Char
  | _, [] => []
  | up, c :: cs =>
    let c2 := if up then c.toUpper else c.toLower
    c2 :: canonicalList (c2 == '-') cs

/-- Go `textproto.CanonicalMIMEHeaderKey`: canonicalise when every
character is a valid token character, otherwise return the key unchanged. -/
def canonicalKey (s : String) : String :=
  if s.data.all isTokenChar then String.mk (canonicalList true s.data) else s

/-! ## Header multimap (net/http Header)

Go's `http.Header` is a map from canonical keys to value slices.  It is
embedded as the flat list of (key, value) pairs in insertion order; two
keys denote the same map entry when their canonicalisations agree.  `Add`
appends, `Set` drops every pair of the key and appends the new one, `Del`
drops every pair of the key, `Get` returns the first value of the key (or
"" when absent), `Values` returns all its values in insertion order. -/

abbrev Header := List (String × String)

def headerAdd (h : Header) (k v : String) : Header := h ++ [(k, v)]

def headerSet (h : Header) (k v : String) : Header :=
  (h.filter fun kv => canonicalKey kv.1 != canonicalKey k) ++ [(k, v)]

def headerDel (h : Header) (k : String) : Header :=
  h.filter fun kv => canonicalKey kv.1 != canonicalKey k

def headerGet (h : Header) (k : String) : String :=
  ((h.find? fun kv => canonicalKey kv.1 == canonicalKey k).map Prod.snd).getD ""

def headerValues (h : Header) (k : String) : List String :=
  (h.filter fun kv => canonicalKey kv.1 == canonicalKey k).map Prod.snd

/-- The header-copy loop of ServeHTTP (lines 120–124): `Add` every captured
(key, value) pair, in order, into the target header map. -/
def addAll (h : Header) (src : Header) : Header :=
  src.foldl (fun acc kv => headerAdd acc kv.1 kv.2) h

/-! ## Decimal conversion (strconv.Itoa / strconv.Atoi) -/

/-- Decimal digits of `n`, most significant first; the first argument is
structural fuel (`n` itself always suffices). -/
def natDigits : Nat → Nat → List Char
  | 0, _ => []
  | _ + 1, 0 => []
  | fuel + 1, n => natDigits fuel (n / 10) ++ [Char.ofNat (48 + n % 10)]

/-- Go `strconv.Itoa` on the embedded `Int` status codes. -/
def itoa (i : Int) : String :=
  match i with
  | Int.ofNat 0 => "0"
  | Int.ofNat n => String.mk (natDigits n n)
  | Int.negSucc m => String.mk (Char.ofNat 45 :: natDigits (m + 1) (m + 1))

def digitVal (c : Char) : Option Nat :=
  if 48 ≤ c.toNat ∧ c.toNat ≤ 57 then some (c.toNat - 48) else none

def digitsToNatAux (acc : Nat) : List Char → Option Nat
  | [] => some acc
  | c :: cs =>
    match digitVal c with
    | some d => digitsToNatAux (acc * 10 + d) cs
    | none => none

/-- Go `strconv.Atoi`: an optional sign followed by one or more ASCII
digits; anything else is a parse error (`none`). -/
def atoi (s : String) : Option Int :=
  match s.data with
  | [] => none
  | c :: cs =>
    if c == '+' then
      match cs with
      | [] => none
      | _ => (digitsToNatAux 0 cs).map Int.ofNat
    else if c == '-' then
      match cs with
      | [] => none
      | _ => (digitsToNatAux 0 cs).map fun n => -(Int.ofNat n)
    else (digitsToNatAux 0 (c :: cs)).map Int.ofNat

/-! ## Query escaping (net/url QueryEscape) -/

/-- UTF-8 encoding of one character, each byte as a `Nat` below 256. -/
def utf8Bytes (c : Char) : List Nat :=
  let n := c.toNat
  if n < 128 then [n]
  else if n < 2048 then [192 + n / 64, 128 + n % 64]
  else if n < 65536 then [224 + n / 4096, 128 + (n / 64) % 64, 128 + n % 64]
  else [240 + n / 262144, 128 + (n / 4096) % 64, 128 + (n / 64) % 64, 128 + n % 64]

/-- Upper-case hexadecimal digit, as used by Go's percent-encoder. -/
def hexDigitUpper (n : Nat) : Char :=
  if n < 10 then Char.ofNat (48 + n) else Char.ofNat (55 + n)

/-- Bytes Go's query encoder leaves unescaped: ASCII alphanumerics and
`-`, `_`, `.`, `~`. -/
def isUnreservedQueryByte (b : Nat) : Bool :=
  (65 ≤ b && b ≤ 90) || (97 ≤ b && b ≤ 122) || (48 ≤ b && b ≤ 57) ||
  b == 45 || b == 95 || b == 46 || b == 126

/-- One byte of `url.QueryEscape` output: space becomes `+`, unreserved
bytes pass through, every other byte becomes `%XX` with upper-case hex. -/
def queryEscapeChars (b : Nat) : List Char :=
  if b == 32 then ['+']
  else if isUnreservedQueryByte b then [Char.ofNat b]
  else ['%', hexDigitUpper (b / 16), hexDigitUpper (b % 16)]

/-- Go `url.QueryEscape`: escape every byte of the UTF-8 encoding. -/
def queryEscape (s : String) : String :=
  String.mk ((s.data.flatMap utf8Bytes).flatMap queryEscapeChars)

/-! ## Textual replacement (strings.ReplaceAll) -/

/-- Left-to-right, non-overlapping replacement over character lists.  The
first `Nat` argument is structural fuel; the length of the subject always
suffices because every step consumes at least one character. -/
def replaceFuel (pat repl : List Char) : Nat → List Char → List Char
  | 0, rest => rest
  | _ + 1, [] => []
  | fuel + 1, c :: cs =>
    if pat.isPrefixOf (c :: cs) then
      repl ++ replaceFuel pat repl fuel (List.drop (pat.length - 1) cs)
    else
      c :: replaceFuel pat repl fuel cs

/-- Go `strings.ReplaceAll` for a non-empty pattern (the two call sites in
ServeHTTP pass the literal patterns `"{status}"` and `"{url}"`). -/
def replaceAll (s pat repl : String) : String :=
  if pat == "" then s
  else String.mk (replaceFuel pat.data repl.data s.data.length s.data)

/-! ## Status-code ranges

Modelled from the spec: `NewHTTPCodeRanges` and `Contains` live in a file
of this repository that is not among the given sources (only
`redirecterrors.go` and its tests are).  Spec §4.1: each entry is either
`"N"` (normalised to the closed interval N–N) or `"N-M"`; construction
fails with a parse error when an entry has any other dash shape or a
non-integer part; membership is a linear scan over the closed intervals. -/

abbrev HTTPCodeRanges := List (Int × Int)

/-- Split a character list at every dash, like Go `strings.Split` on "-". -/
def splitOnDashAux (cur : List Char) : List Char → List (List Char)
  | [] => [cur.reverse]
  | c :: cs =>
    if c == '-' then cur.reverse :: splitOnDashAux [] cs
    else splitOnDashAux (c :: cur) cs

def splitOnDash (l : List Char) : List (List Char) := splitOnDashAux [] l

/-- Modelled from the spec: parse one status entry, `"N"` or `"N-M"`. -/
def parseBlock (block : String) : Option (Int × Int) :=
  match splitOnDash block.data with
  | [s] => (atoi (String.mk s)).bind fun n => some (n, n)
  | [s1, s2] =>
    (atoi (String.mk s1)).bind fun low =>
      (atoi (String.mk s2)).map fun high => (low, high)
  | _ => none

/-- Modelled from the spec: `NewHTTPCodeRanges` parses the configured
entries in order and fails on the first malformed one. -/
def NewHTTPCodeRanges : List String → Except String HTTPCodeRanges
  | [] => Except.ok []
  | b :: rest =>
    match parseBlock b with
    | none => Except.error ("invalid status code range: " ++ b)
    | some r =>
      match NewHTTPCodeRanges rest with
      | Except.error e => Except.error e
      | Except.ok rs => Except.ok (r :: rs)

/-- Modelled from the spec: `Contains` is true iff the code lies in at
least one closed interval. -/
def HTTPCodeRanges.Contains (ranges : HTTPCodeRanges) (code : Int) : Bool :=
  ranges.any fun r => decide (r.1 ≤ code ∧ code ≤ r.2)

/-! ## The real response sink (net/http ResponseWriter)

The sink records the header map, the committed status, the snapshot of the
header map at the moment the status was committed (these are the
headers actually sent on the wire — per net/http, changing the map after
`WriteHeader` has no effect on the response), and the body bytes written
so far.  `failWrites` models a broken transport: every body write fails
with error message `errMsg`.  Per the `ResponseWriter` contract only the
first `WriteHeader` takes effect and the first `Write` without a prior
`WriteHeader` commits status 200 implicitly. -/

structure Sink where
  header : Header
  status : Option Int
  sentHeader : Option Header
  body : String
  failWrites : Bool
  errMsg : String

def freshSink (fail : Bool) (msg : String) : Sink :=
  { header := [], status := none, sentHeader := none, body := ""
    failWrites := fail, errMsg := msg }

def writeHeaderSink (s : Sink) (code : Int) : Sink :=
  match s.status with
  | some _ => s
  | none => { s with status := some code, sentHeader := some s.header }

/-- `Write`: commit status 200 if none committed yet, then append the body
bytes; returns `false` when the transport write failed. -/
def writeSink (s : Sink) (str : String) : Sink × Bool :=
  let s2 := writeHeaderSink s 200
  if s2.failWrites then (s2, false) else ({ s2 with body := s2.body ++ str }, true)

/-- Headers actually delivered to the client: the snapshot committed with
the status line (the current map if the response was never committed). -/
def deliveredHeader (s : Sink) : Header := s.sentHeader.getD s.header

/-! ## The downstream handler as a trace of response-writer events -/

inductive RespEvent where
  | setHeader (k v : String)
  | addHeader (k v : String)
  | delHeader (k : String)
  | writeHeader (code : Int)
  | write (s : String)

/-- Effect of a header-map event on a header map (no-op for the two
non-header events). -/
def applyHeaderEv (h : Header) : RespEvent → Header
  | RespEvent.setHeader k v => headerSet h k v
  | RespEvent.addHeader k v => headerAdd h k v
  | RespEvent.delHeader k => headerDel h k
  | _ => h

/-- One handler event executed directly against the real sink. -/
def directStep (s : Sink) : RespEvent → Sink
  | RespEvent.writeHeader c => writeHeaderSink s c
  | RespEvent.write str => (writeSink s str).1
  | ev => { s with header := applyHeaderEv s.header ev }

/-- The downstream handler writing straight to the real sink (what the
client would get with no middleware in front). -/
def runDirect (evs : List RespEvent) (s : Sink) : Sink := evs.foldl directStep s

/-- The status code a handler trace fixes: the first explicit
`WriteHeader`, or 200 at the first body write, or none at all. -/
def fixedCode : List RespEvent → Option Int
  | [] => none
  | RespEvent.writeHeader c :: _ => some c
  | RespEvent.write _ :: _ => some 200
  | _ :: evs => fixedCode evs

/-! ## The response capture

Modelled from the spec: `newCodeCatcher` is in the repository file that is
not among the given sources.  Spec §4.2: the capture buffers headers until
the status is fixed (first `WriteHeader`, or implicitly 200 at the first
body write); if the fixed code is filtered it suppresses everything (body
writes are discarded, the real sink is never touched); otherwise it is a
transparent pass-through, forwarding the buffered headers, the status and
every subsequent event to the real sink unchanged and in order. -/

structure CodeCatcher where
  headerMap : Header
  caughtCode : Option Int
  filtered : Bool

def newCodeCatcher : CodeCatcher :=
  { headerMap := [], caughtCode := none, filtered := false }

/-- Modelled from the spec: one handler event against the capture paired
with the real sink. -/
def catcherStep (ranges : HTTPCodeRanges) (st : CodeCatcher × Sink)
    (ev : RespEvent) : CodeCatcher × Sink :=
  let cc := st.1
  let sink := st.2
  match cc.caughtCode with
  | none =>
    match ev with
    | RespEvent.writeHeader c =>
      if HTTPCodeRanges.Contains ranges c then
        ({ cc with caughtCode := some c, filtered := true }, sink)
      else
        ({ cc with caughtCode := some c, filtered := false },
         writeHeaderSink { sink with header := addAll sink.header cc.headerMap } c)
    | RespEvent.write str =>
      if HTTPCodeRanges.Contains ranges 200 then
        ({ cc with caughtCode := some 200, filtered := true }, sink)
      else
        ({ cc with caughtCode := some 200, filtered := false },
         (writeSink { sink with header := addAll sink.header cc.headerMap } str).1)
    | hev => ({ cc with headerMap := applyHeaderEv cc.headerMap hev }, sink)
  | some _ =>
    if cc.filtered then
      match ev with
      | RespEvent.writeHeader _ => (cc, sink)
      | RespEvent.write _ => (cc, sink)
      | hev => ({ cc with headerMap := applyHeaderEv cc.headerMap hev }, sink)
    else
      (cc, directStep sink ev)

def runCatcher (ranges : HTTPCodeRanges) (evs : List RespEvent)
    (st : CodeCatcher × Sink) : CodeCatcher × Sink :=
  evs.foldl (catcherStep ranges) st

def CodeCatcher.isFilteredCode (cc : CodeCatcher) : Bool := cc.filtered

def CodeCatcher.getCode (cc : CodeCatcher) : Int := cc.caughtCode.getD 200

def CodeCatcher.getHeaders (cc : CodeCatcher) : Header := cc.headerMap

/-! ## Configuration and construction (redirecterrors.go lines 15–90) -/

/-- The plugin configuration (`Config`, lines 15–24).  The Go
`map[string]string` of headers to force-add is embedded as an association
list (the map's key set; iteration order over a Go map is unspecified, and
`Set` per distinct key is order-independent). -/
structure Config where
  status : List String
  target : String
  outputStatus : Int
  outputAddHeaders : List (String × String)
  outputRemoveHeaders : List String
  outputAddCookies : List String
  outputRemoveCookies : List String

/-- `CreateConfig` (lines 26–33): the default configuration. -/
def CreateConfig : Config :=
  { status := [], target := "", outputStatus := 302, outputAddHeaders := []
    outputRemoveHeaders := [], outputAddCookies := [], outputRemoveCookies := [] }

/-- The constructed plugin (`RedirectErrors`, lines 35–46), with the two
pattern lists already compiled to matchers. -/
structure RedirectErrors where
  httpCodeRanges : HTTPCodeRanges
  target : String
  outputStatus : Int
  outputAddHeaders : List (String × String)
  outputRemoveHeaders : List (String → Bool)
  outputAddCookies : List String
  outputRemoveCookies : List (String → Bool)

/-- The two pattern-compilation loops of `New` (lines 59–77): compile each
pattern in order, failing on the first invalid one. -/
def compileAll (compile : String → Option (String → Bool)) (msg : String) :
    List String → Except String (List (String → Bool))
  | [] => Except.ok []
  | p :: rest =>
    match compile p with
    | none => Except.error (msg ++ p)
    | some re =>
      match compileAll compile msg rest with
      | Except.error e => Except.error e
      | Except.ok res => Except.ok (re :: res)

/-- `New` (lines 48–90): reject an empty target, parse the status ranges,
compile both removal-pattern lists, then build the plugin value.
`compile` is the `regexp.Compile` oracle. -/
def New (compile : String → Option (String → Bool)) (config : Config) :
    Except String RedirectErrors :=
  if config.target == "" then Except.error "target url must be set"
  else
    match NewHTTPCodeRanges config.status with
    | Except.error e => Except.error e
    | Except.ok httpCodeRanges =>
      match compileAll compile "invalid regex pattern: " config.outputRemoveHeaders with
      | Except.error e => Except.error e
      | Except.ok removePatterns =>
        match compileAll compile "invalid cookie regex pattern: " config.outputRemoveCookies with
        | Except.error e => Except.error e
        | Except.ok removeCookiePatterns =>
          Except.ok
            { httpCodeRanges := httpCodeRanges
              target := config.target
              outputStatus := config.outputStatus
              outputAddHeaders := config.outputAddHeaders
              outputRemoveHeaders := removePatterns
              outputAddCookies := config.outputAddCookies
              outputRemoveCookies := removeCookiePatterns }

/-! ## The request, the composed location, and the redirect pipeline -/

/-- The inbound request as ServeHTTP reads it: the two forwarded headers
(`""` when absent, matching `req.Header.Get`), `req.URL.String()`,
`req.URL.RequestURI()` (path and query), and the request cookies as
(name, value) pairs in header order (`req.Cookies()`). -/
structure Request where
  xForwardedProto : String
  xForwardedHost : String
  urlString : String
  requestURI : String
  cookies : List (String × String)

/-- ServeHTTP lines 102–111: reconstruct the externally visible URL from
the forwarded headers when both are non-empty (Go tests `len != 0`),
falling back to the request's own URL. -/
def reconstructURL (req : Request) : String :=
  if req.xForwardedProto ≠ "" ∧ req.xForwardedHost ≠ "" then
    req.xForwardedProto ++ "://" ++ req.xForwardedHost ++ req.requestURI
  else req.urlString

/-- ServeHTTP lines 113–115: substitute `{status}` and then `{url}` in the
configured target template. -/
def composeLocation (target : String) (code : Int) (req : Request) : String :=
  replaceAll (replaceAll target "{status}" (itoa code)) "{url}" (queryEscape (reconstructURL req))

/-- ServeHTTP lines 134–143: the header-removal pass.  The Go loop ranges
over the distinct (canonical) keys of the map and deletes a key on its
first matching pattern (`break`); extensionally that keeps exactly the
pairs whose canonical key matches no removal pattern. -/
def removeHeadersStage (ms : List (String → Bool)) (h : Header) : Header :=
  h.filter fun kv => !(ms.any fun m => m (canonicalKey kv.1))

/-- ServeHTTP line 161: the deletion `Set-Cookie` value for one name. -/
def deletionDirective (name : String) : String :=
  name ++ "=; Path=/; Max-Age=0; HttpOnly; Secure"

/-- ServeHTTP lines 153–170: walk the request cookies; on the first
pattern matching a name (`break`), emit one deletion directive unless that
name was already handled (`removedCookies` map, embedded as the `removed`
list). -/
def buildDeletionCookiesAux (ms : List (String → Bool)) :
    List (String × String) → List String → List String
  | [], _ => []
  | ck :: rest, removed =>
    if ms.any fun m => m ck.1 then
      if removed.contains ck.1 then buildDeletionCookiesAux ms rest removed
      else deletionDirective ck.1 :: buildDeletionCookiesAux ms rest (ck.1 :: removed)
    else buildDeletionCookiesAux ms rest removed

def buildDeletionCookies (ms : List (String → Bool))
    (cookies : List (String × String)) : List String :=
  buildDeletionCookiesAux ms cookies []

/-- ServeHTTP lines 119–170: every mutation of `rw.Header()` between the
capture and `WriteHeader`, in source order — copy the captured headers,
set `Location`, set the configured add-headers, run the removal pass,
append the configured cookies, append the deletion directives (the
`len > 0` guard of line 153 included). -/
def composeRedirectHeader (a : RedirectErrors) (req : Request) (code : Int)
    (captured : Header) (h : Header) : Header :=
  let h1 := addAll h captured
  let h2 := headerSet h1 "Location" (composeLocation a.target code req)
  let h3 := a.outputAddHeaders.foldl (fun acc kv => headerSet acc kv.1 kv.2) h2
  let h4 := removeHeadersStage a.outputRemoveHeaders h3
  let h5 := a.outputAddCookies.foldl (fun acc ck => headerAdd acc "Set-Cookie" ck) h4
  if 0 < a.outputRemoveCookies.length then
    (buildDeletionCookies a.outputRemoveCookies req.cookies).foldl
      (fun acc d => headerAdd acc "Set-Cookie" d) h5
  else h5

/-- net/http `Error`: drop Content-Length, set the plain-text content type
and nosniff headers, write the status (a no-op if one is already
committed) and the message with a trailing newline. -/
def httpErrorSink (s : Sink) (msg : String) (code : Int) : Sink :=
  let h1 := headerDel s.header "Content-Length"
  let h2 := headerSet h1 "Content-Type" "text/plain; charset=utf-8"
  let h3 := headerSet h2 "X-Content-Type-Options" "nosniff"
  let s2 := writeHeaderSink { s with header := h3 } code
  (writeSink s2 (msg ++ "\n")).1

/-- `RedirectErrors.ServeHTTP` (lines 92–178): run the downstream handler
against a fresh capture; pass through when the code is not filtered;
otherwise assemble the redirect headers, write the configured output
status and the fixed body `"Redirecting"`, reporting a failed body write
via `http.Error(rw, err.Error(), 500)`. -/
def serveHTTP (a : RedirectErrors) (req : Request) (handler : List RespEvent)
    (rw : Sink) : Sink :=
  let st := runCatcher a.httpCodeRanges handler (newCodeCatcher, rw)
  let catcher := st.1
  let rw1 := st.2
  if !catcher.isFilteredCode then rw1
  else
    let code := catcher.getCode
    let rw2 := { rw1 with
      header := composeRedirectHeader a req code catcher.getHeaders rw1.header }
    let rw3 := writeHeaderSink rw2 a.outputStatus
    let res := writeSink rw3 "Redirecting"
    if res.2 then res.1 else httpErrorSink res.1 res.1.errMsg 500

/-! ## Spec-side reformulations used for refinement statements -/

/-- First-occurrence deduplication of a name list, skipping names already
in `seen`. -/
def dedupFirstAux (seen : List String) : List String → List String
  | [] => []
  | x :: xs =>
    if seen.contains x then dedupFirstAux seen xs
    else x :: dedupFirstAux (x :: seen) xs

/-- The cookie-removal step as the spec words it (§4.3 step 8): take each
distinct request-cookie name in first-occurrence order and emit one
deletion directive for every name some removal pattern matches. -/
def specDeletionList (ms : List (String → Bool))
    (cookies : List (String × String)) : List String :=
  (dedupFirstAux [] (cookies.map Prod.fst)).filterMap fun n =>
    if ms.any fun m => m n then some (deletionDirective n) else none

/-! ## Concrete fixtures for witnesses and counterexamples -/

/-- A `regexp.Compile` oracle under which every pattern compiles to a
matcher that matches nothing (the fixture configurations below carry no
removal patterns, so the oracle's output is never consulted). -/
def compileNone (_p : String) : Option (String → Bool) :=
  some fun _s => false

def cfgEx : Config :=
  { status := ["401"], target := "http://target/?status={status}&url={url}"
    outputStatus := 302, outputAddHeaders := [], outputRemoveHeaders := []
    outputAddCookies := [], outputRemoveCookies := [] }

/-- The plugin value `New compileNone cfgEx` evaluates to. -/
def aEx : RedirectErrors :=
  { httpCodeRanges := [(401, 401)], target := "http://target/?status={status}&url={url}"
    outputStatus := 302, outputAddHeaders := [], outputRemoveHeaders := []
    outputAddCookies := [], outputRemoveCookies := [] }

/-- A plain request to http://localhost with no forwarded headers. -/
def reqEx : Request :=
  { xForwardedProto := "", xForwardedHost := "", urlString := "http://localhost"
    requestURI := "/", cookies := [] }

/-- A request to http://localhost/api/test carrying
X-Forwarded-Proto: https and X-Forwarded-Host: example.com. -/
def reqFwd : Request :=
  { xForwardedProto := "https", xForwardedHost := "example.com"
    urlString := "http://localhost/api/test", requestURI := "/api/test", cookies := [] }

/-- The plugin of the C4 example: target `http://target/?return={url}`. -/
def aFwd : RedirectErrors :=
  { httpCodeRanges := [(401, 401)], target := "http://target/?return={url}"
    outputStatus := 302, outputAddHeaders := [], outputRemoveHeaders := []
    outputAddCookies := [], outputRemoveCookies := [] }

/-- The compiled form of the pattern `^Location$`. -/
def locationMatcher (s : String) : Bool := s == "Location"

/-- A plugin configured with `outputRemoveHeaders: ["^Location$"]` and no
`Location` key in `outputAddHeaders`. -/
def aRemoveLocation : RedirectErrors :=
  { httpCodeRanges := [(401, 401)], target := "http://target/?status={status}&url={url}"
    outputStatus := 302, outputAddHeaders := [], outputRemoveHeaders := [locationMatcher]
    outputAddCookies := [], outputRemoveCookies := [] }

/-- The compiled form of the pattern `^authentik_proxy_.+$`. -/
def authentikMatcher (s : String) : Bool :=
  (s.data.take 16 == "authentik_proxy_".data) && decide (16 < s.data.length)

/-- A plugin configured with `outputRemoveCookies: ["^authentik_proxy_.+$"]`. -/
def aCookies : RedirectErrors :=
  { httpCodeRanges := [(401, 401)], target := "http://target/"
    outputStatus := 302, outputAddHeaders := [], outputRemoveHeaders := []
    outputAddCookies := [], outputRemoveCookies := [authentikMatcher] }

/-- A request carrying the cookies `authentik_proxy_user` and `keep_this`. -/
def reqCookies : Request :=
  { xForwardedProto := "", xForwardedHost := "", urlString := "http://localhost"
    requestURI := "/", cookies := [("authentik_proxy_user", "u"), ("keep_this", "v")] }

/-- A configuration that passes construction with `OutputStatus = 0`. -/
def cfgZero : Config :=
  { status := ["401"], target := "http://target/"
    outputStatus := 0, outputAddHeaders := [], outputRemoveHeaders := []
    outputAddCookies := [], outputRemoveCookies := [] }

/-- The plugin value `New compileNone cfgZero` evaluates to. -/
def aZero : RedirectErrors :=
  { httpCodeRanges := [(401, 401)], target := "http://target/"
    outputStatus := 0, outputAddHeaders := [], outputRemoveHeaders := []
    outputAddCookies := [], outputRemoveCookies := [] }

/-! ## Basic header-map lemmas -/

theorem addAll_eq (src : Header) (h : Header) : addAll h src = h ++ src := by
  induction src generalizing h with
  | nil => simp [addAll]
  | cons kv rest ih =>
    show addAll (headerAdd h kv.1 kv.2) rest = h ++ kv :: rest
    rw [ih, headerAdd]
    simp

theorem foldl_headerAdd_eq (k : String) (l : List String) (h : Header) :
    l.foldl (fun acc v => headerAdd acc k v) h = h ++ l.map fun v => (k, v) := by
  induction l generalizing h with
  | nil => simp
  | cons v rest ih =>
    show rest.foldl _ (headerAdd h k v) = _
    rw [ih, headerAdd]
    simp

/-! ## Behaviour of the capture, phase by phase -/

/-- After the code is fixed on an unfiltered value, the capture is a
transparent pass-through: the remaining trace hits the real sink exactly
as it would without the middleware. -/
theorem runCatcher_unfiltered (ranges : HTTPCodeRanges) (evs : List RespEvent)
    (cc : CodeCatcher) (c : Int)
    (hc : cc.caughtCode = some c) (hf : cc.filtered = false) :
    ∀ sink, runCatcher ranges evs (cc, sink) = (cc, runDirect evs sink) := by
  induction evs with
  | nil => intro sink; rfl
  | cons ev rest ih =>
    intro sink
    have hstep : catcherStep ranges (cc, sink) ev = (cc, directStep sink ev) := by
      simp [catcherStep, hc, hf]
    show runCatcher ranges rest (catcherStep ranges (cc, sink) ev) = _
    rw [hstep]
    exact ih (directStep sink ev)

/-- After the code is fixed on a filtered value, the capture swallows the
rest of the trace: the real sink is never touched again, only the
captured header map keeps evolving. -/
theorem runCatcher_filtered (ranges : HTTPCodeRanges) (evs : List RespEvent) (c : Int) :
    ∀ cc sink, cc.caughtCode = some c → cc.filtered = true →
      ∃ hm, runCatcher ranges evs (cc, sink) = ({ cc with headerMap := hm }, sink) := by
  induction evs with
  | nil => intro cc sink _ _; exact ⟨cc.headerMap, rfl⟩
  | cons ev rest ih =>
    intro cc sink hc hf
    have hstep : catcherStep ranges (cc, sink) ev =
        ({ cc with headerMap := applyHeaderEv cc.headerMap ev }, sink) := by
      cases ev <;> simp [catcherStep, hc, hf, applyHeaderEv] <;> rw [← hc, ← hf]
    show ∃ hm, runCatcher ranges rest (catcherStep ranges (cc, sink) ev) = _
    rw [hstep]
    obtain ⟨hm, heq⟩ := ih { cc with headerMap := applyHeaderEv cc.headerMap ev } sink hc hf
    exact ⟨hm, heq⟩

/-- A trace that fixes a filtered code leaves the real sink untouched;
the capture ends with that code, marked filtered. -/
theorem runCatcher_fix_filtered (ranges : HTTPCodeRanges) (c : Int) :
    ∀ evs : List RespEvent, fixedCode evs = some c →
      HTTPCodeRanges.Contains ranges c = true →
      ∀ buf sink, ∃ hm,
        runCatcher ranges evs (⟨buf, none, false⟩, sink)
          = (⟨hm, some c, true⟩, sink) := by
  intro evs
  induction evs with
  | nil => intro hfix; simp [fixedCode] at hfix
  | cons ev rest ih =>
    intro hfix hin buf sink
    cases ev with
    | setHeader k v => exact ih hfix hin (headerSet buf k v) sink
    | addHeader k v => exact ih hfix hin (headerAdd buf k v) sink
    | delHeader k => exact ih hfix hin (headerDel buf k) sink
    | writeHeader c2 =>
      have hc2 : c2 = c := by simpa [fixedCode] using hfix
      subst hc2
      have hstep : catcherStep ranges (⟨buf, none, false⟩, sink) (RespEvent.writeHeader c2)
          = (⟨buf, some c2, true⟩, sink) := by
        simp [catcherStep, hin]
      show ∃ hm, runCatcher ranges rest (catcherStep ranges (⟨buf, none, false⟩, sink)
        (RespEvent.writeHeader c2)) = _
      rw [hstep]
      exact runCatcher_filtered ranges rest c2 ⟨buf, some c2, true⟩ sink rfl rfl
    | write str =>
      have hc2 : (200 : Int) = c := by simpa [fixedCode] using hfix
      subst hc2
      have hstep : catcherStep ranges (⟨buf, none, false⟩, sink) (RespEvent.write str)
          = (⟨buf, some 200, true⟩, sink) := by
        simp [catcherStep, hin]
      show ∃ hm, runCatcher ranges rest (catcherStep ranges (⟨buf, none, false⟩, sink)
        (RespEvent.write str)) = _
      rw [hstep]
      exact runCatcher_filtered ranges rest 200 ⟨buf, some 200, true⟩ sink rfl rfl

/-- A trace that fixes an unfiltered code is forwarded verbatim: starting
from a sink with an empty header map and no committed status, the capture
produces exactly the sink the handler would have produced writing
directly (with the buffered headers replayed at the commit). -/
theorem runCatcher_fix_unfiltered (ranges : HTTPCodeRanges) (c : Int) :
    ∀ evs : List RespEvent, fixedCode evs = some c →
      HTTPCodeRanges.Contains ranges c = false →
      ∀ buf (sink : Sink), sink.header = [] →
        ∃ hm, runCatcher ranges evs (⟨buf, none, false⟩, sink)
          = (⟨hm, some c, false⟩, runDirect evs { sink with header := buf }) := by
  intro evs
  induction evs with
  | nil => intro hfix; simp [fixedCode] at hfix
  | cons ev rest ih =>
    intro hfix hout buf sink hhdr
    cases ev with
    | setHeader k v =>
      obtain ⟨hm, heq⟩ := ih hfix hout (headerSet buf k v) sink hhdr
      exact ⟨hm, heq⟩
    | addHeader k v =>
      obtain ⟨hm, heq⟩ := ih hfix hout (headerAdd buf k v) sink hhdr
      exact ⟨hm, heq⟩
    | delHeader k =>
      obtain ⟨hm, heq⟩ := ih hfix hout (headerDel buf k) sink hhdr
      exact ⟨hm, heq⟩
    | writeHeader c2 =>
      have hc2 : c2 = c := by simpa [fixedCode] using hfix
      subst hc2
      have hstep : catcherStep ranges (⟨buf, none, false⟩, sink) (RespEvent.writeHeader c2)
          = (⟨buf, some c2, false⟩, writeHeaderSink { sink with header := buf } c2) := by
        simp [catcherStep, hout, addAll_eq, hhdr]
      show ∃ hm, runCatcher ranges rest (catcherStep ranges (⟨buf, none, false⟩, sink)
        (RespEvent.writeHeader c2)) = _
      rw [hstep]
      exact ⟨buf, runCatcher_unfiltered ranges rest ⟨buf, some c2, false⟩ c2 rfl rfl _⟩
    | write str =>
      have hc2 : (200 : Int) = c := by simpa [fixedCode] using hfix
      subst hc2
      have hstep : catcherStep ranges (⟨buf, none, false⟩, sink) (RespEvent.write str)
          = (⟨buf, some 200, false⟩, (writeSink { sink with header := buf } str).1) := by
        simp [catcherStep, hout, addAll_eq, hhdr]
      show ∃ hm, runCatcher ranges rest (catcherStep ranges (⟨buf, none, false⟩, sink)
        (RespEvent.write str)) = _
      rw [hstep]
      exact ⟨buf, runCatcher_unfiltered ranges rest ⟨buf, some 200, false⟩ 200 rfl rfl _⟩

/-! ## Constructed plugin fields -/

theorem New_ok_fields {compile : String → Option (String → Bool)} {cfg : Config}
    {a : RedirectErrors} (h : New compile cfg = Except.ok a) :
    a.outputStatus = cfg.outputStatus ∧ a.target = cfg.target ∧
      a.outputAddHeaders = cfg.outputAddHeaders ∧
      a.outputAddCookies = cfg.outputAddCookies := by
  unfold New at h
  split at h
  · exact absurd h (by simp)
  · split at h
    · exact absurd h (by simp)
    · split at h
      · exact absurd h (by simp)
      · split at h
        · exact absurd h (by simp)
        · injection h with h2
          subst h2
          exact ⟨rfl, rfl, rfl, rfl⟩

/-! ## The redirect path of ServeHTTP, evaluated -/

/-- ServeHTTP, rewritten by the (already evaluated) run of the capture. -/
theorem serveHTTP_run_eq (a : RedirectErrors) (req : Request) (evs : List RespEvent)
    (rw : Sink) (cc : CodeCatcher) (s1 : Sink)
    (h : runCatcher a.httpCodeRanges evs (newCodeCatcher, rw) = (cc, s1)) :
    serveHTTP a req evs rw =
      if !cc.isFilteredCode then s1
      else
        let rw2 : Sink :=
          { s1 with header := composeRedirectHeader a req cc.getCode cc.getHeaders s1.header }
        let rw3 := writeHeaderSink rw2 a.outputStatus
        let res := writeSink rw3 "Redirecting"
        if res.2 then res.1 else httpErrorSink res.1 res.1.errMsg 500 := by
  simp only [serveHTTP, h]

/-- On a filtered code, ServeHTTP delivers the composed redirect headers
(snapshotted at the `WriteHeader` of line 172, seeded from the captured
headers), the configured output status, and — when the transport does not
fail — exactly the body `"Redirecting"`. -/
theorem serveHTTP_filtered_spec (a : RedirectErrors) (req : Request)
    (evs : List RespEvent) (c : Int) (m : String) (f : Bool)
    (hfix : fixedCode evs = some c)
    (hin : HTTPCodeRanges.Contains a.httpCodeRanges c = true) :
    ∃ hm,
      deliveredHeader (serveHTTP a req evs (freshSink f m))
          = composeRedirectHeader a req c hm [] ∧
      (serveHTTP a req evs (freshSink f m)).status = some a.outputStatus ∧
      (f = false → (serveHTTP a req evs (freshSink f m)).body = "Redirecting") := by
  obtain ⟨hm, hrun⟩ := runCatcher_fix_filtered a.httpCodeRanges c evs hfix hin [] (freshSink f m)
  have hs := serveHTTP_run_eq a req evs (freshSink f m) ⟨hm, some c, true⟩ (freshSink f m) hrun
  refine ⟨hm, ?_, ?_, ?_⟩ <;> cases f <;> rw [hs] <;>
    simp [deliveredHeader, CodeCatcher.isFilteredCode, CodeCatcher.getCode,
      CodeCatcher.getHeaders, freshSink, writeHeaderSink, writeSink, httpErrorSink]

/-- C1: for every request whose downstream handler fixes a status code
contained in the configured status-range set, the client never receives
any byte of the downstream handler's body — the delivered body is the
fixed string `"Redirecting"` whatever the handler wrote — and the
delivered status is the configured output status code; the fixed body is
non-empty. -/
theorem C1_filtered_replaces_body {compile : String → Option (String → Bool)}
    {cfg : Config} {a : RedirectErrors} (req : Request) (evs : List RespEvent)
    (c : Int) (m : String)
    (hnew : New compile cfg = Except.ok a)
    (hfix : fixedCode evs = some c)
    (hin : HTTPCodeRanges.Contains a.httpCodeRanges c = true) :
    (serveHTTP a req evs (freshSink false m)).status = some cfg.outputStatus ∧
    (serveHTTP a req evs (freshSink false m)).body = "Redirecting" ∧
    "Redirecting" ≠ "" := by
  obtain ⟨hm, _, hstat, hbody⟩ := serveHTTP_filtered_spec a req evs c m false hfix hin
  refine ⟨?_, hbody rfl, by decide⟩
  rw [hstat, (New_ok_fields hnew).1]

/-- Witness for C1 at the concrete configuration `cfgEx` (ranges `["401"]`,
output status 302), a handler that writes status 401 and the body
`"secret"`, and a healthy transport. -/
theorem C1_filtered_replaces_body_witness :
    (serveHTTP aEx reqEx [RespEvent.writeHeader 401, RespEvent.write "secret"]
        (freshSink false "e")).status = some 302 ∧
    (serveHTTP aEx reqEx [RespEvent.writeHeader 401, RespEvent.write "secret"]
        (freshSink false "e")).body = "Redirecting" ∧
    "Redirecting" ≠ "" :=
  @C1_filtered_replaces_body compileNone cfgEx aEx
    reqEx [RespEvent.writeHeader 401, RespEvent.write "secret"] 401 "e"
    (by rfl) (by rfl) (by rfl)

/-- C2: for every request whose downstream handler fixes a status code not
contained in any configured range, the state of the real sink after
ServeHTTP — status, header map, committed header snapshot and body bytes,
in order — is identical to the state the downstream handler produces
writing directly to the sink: the middleware adds, removes and changes
nothing on the pass-through path. -/
theorem C2_passthrough_byte_identical (a : RedirectErrors) (req : Request)
    (evs : List RespEvent) (c : Int) (f : Bool) (m : String)
    (hfix : fixedCode evs = some c)
    (hout : HTTPCodeRanges.Contains a.httpCodeRanges c = false) :
    serveHTTP a req evs (freshSink f m) = runDirect evs (freshSink f m) := by
  obtain ⟨hm, hrun⟩ :=
    runCatcher_fix_unfiltered a.httpCodeRanges c evs hfix hout [] (freshSink f m) rfl
  have hfr : ({ freshSink f m with header := [] } : Sink) = freshSink f m := rfl
  rw [hfr] at hrun
  rw [serveHTTP_run_eq a req evs (freshSink f m) ⟨hm, some c, false⟩
    (runDirect evs (freshSink f m)) hrun]
  rfl

/-- Witness for C2: handler status 404 (not in the range set `["401"]`),
with headers and a body; ServeHTTP forwards everything verbatim. -/
theorem C2_passthrough_byte_identical_witness :
    serveHTTP aEx reqEx
        [RespEvent.setHeader "X-Test" "v", RespEvent.writeHeader 404, RespEvent.write "hello"]
        (freshSink false "e")
      = runDirect
          [RespEvent.setHeader "X-Test" "v", RespEvent.writeHeader 404, RespEvent.write "hello"]
          (freshSink false "e") :=
  C2_passthrough_byte_identical aEx reqEx
    [RespEvent.setHeader "X-Test" "v", RespEvent.writeHeader 404, RespEvent.write "hello"]
    404 false "e" (by rfl) (by rfl)

/-! ## The Location header through the composition pipeline -/

/-- A header map holding a distinguished `Location` pair such that every
pair before it has a different canonical key: `headerGet "Location"`
returns that pair's value. -/
def LocShape (loc : String) (h : Header) : Prop :=
  ∃ l1 l2, h = l1 ++ ("Location", loc) :: l2 ∧
    ∀ kv ∈ l1, (canonicalKey kv.1 == "Location") = false

theorem locShape_get (loc : String) (h : Header) (hs : LocShape loc h) :
    headerGet h "Location" = loc := by
  obtain ⟨l1, l2, heq, hl1⟩ := hs
  subst heq
  induction l1 with
  | nil => simp [headerGet, List.find?]
  | cons kv l1 ih =>
    have hkv := hl1 kv (by simp)
    simp only [List.cons_append, headerGet, List.find?]
    rw [show canonicalKey "Location" = "Location" from rfl, hkv]
    exact ih fun kv2 hm => hl1 kv2 (by simp [hm])

theorem locShape_filter (loc : String) (p : String × String → Bool) (h : Header)
    (hp : p ("Location", loc) = true) (hs : LocShape loc h) :
    LocShape loc (h.filter p) := by
  obtain ⟨l1, l2, heq, hl1⟩ := hs
  subst heq
  refine ⟨l1.filter p, l2.filter p, ?_, ?_⟩
  · simp [List.filter_append, List.filter_cons, hp]
  · intro kv hkv
    exact hl1 kv (List.mem_of_mem_filter hkv)

theorem locShape_set (loc k v : String) (h : Header)
    (hk : canonicalKey k ≠ "Location") (hs : LocShape loc h) :
    LocShape loc (headerSet h k v) := by
  have hp : (fun kv : String × String => canonicalKey kv.1 != canonicalKey k)
      ("Location", loc) = true := by
    simp only [bne_iff_ne, ne_eq]
    rw [show canonicalKey "Location" = "Location" from rfl]
    exact fun hcontra => hk hcontra.symm
  obtain ⟨l1, l2, heq, hl1⟩ :=
    locShape_filter loc (fun kv => canonicalKey kv.1 != canonicalKey k) h hp hs
  exact ⟨l1, l2 ++ [(k, v)], by rw [headerSet, heq]; simp, hl1⟩

theorem locShape_add (loc k v : String) (h : Header) (hs : LocShape loc h) :
    LocShape loc (headerAdd h k v) := by
  obtain ⟨l1, l2, heq, hl1⟩ := hs
  exact ⟨l1, l2 ++ [(k, v)], by rw [headerAdd, heq]; simp, hl1⟩

theorem locShape_setFold (loc : String) (l : List (String × String)) (h : Header)
    (hl : ∀ kv ∈ l, canonicalKey kv.1 ≠ "Location") (hs : LocShape loc h) :
    LocShape loc (l.foldl (fun acc kv => headerSet acc kv.1 kv.2) h) := by
  induction l generalizing h with
  | nil => exact hs
  | cons kv rest ih =>
    exact ih (headerSet h kv.1 kv.2)
      (fun kv2 hm => hl kv2 (by simp [hm]))
      (locShape_set loc kv.1 kv.2 h (hl kv (by simp)) hs)

theorem locShape_addFold (loc k : String) (l : List String) (h : Header)
    (hs : LocShape loc h) :
    LocShape loc (l.foldl (fun acc v => headerAdd acc k v) h) := by
  induction l generalizing h with
  | nil => exact hs
  | cons v rest ih =>
    exact ih (headerAdd h k v) (locShape_add loc k v h hs)

/-- Through the whole redirect-header pipeline, provided no configured
add-header key canonicalises to `Location` and no removal pattern matches
the canonical name `Location`, the final `Location` value is exactly the
composed redirect target — whatever the captured headers held. -/
theorem composeRedirectHeader_location (a : RedirectErrors) (req : Request)
    (c : Int) (captured : Header) (h : Header)
    (hnoadd : ∀ kv ∈ a.outputAddHeaders, canonicalKey kv.1 ≠ "Location")
    (hnorem : ∀ mm ∈ a.outputRemoveHeaders, mm "Location" = false) :
    headerGet (composeRedirectHeader a req c captured h) "Location"
      = composeLocation a.target c req := by
  apply locShape_get
  unfold composeRedirectHeader
  have h2 : LocShape (composeLocation a.target c req)
      (headerSet (addAll h captured) "Location" (composeLocation a.target c req)) := by
    refine ⟨(addAll h captured).filter _, [], rfl, ?_⟩
    intro kv hkv
    have := List.of_mem_filter hkv
    simpa [bne_iff_ne] using this
  have h3 := locShape_setFold _ a.outputAddHeaders _ hnoadd h2
  have hp : (fun kv : String × String =>
      !(a.outputRemoveHeaders.any fun mm => mm (canonicalKey kv.1)))
      ("Location", composeLocation a.target c req) = true := by
    simp only [Bool.not_eq_true']
    rw [show canonicalKey "Location" = "Location" from rfl]
    exact List.any_eq_false.2 fun x hx => by simp [hnorem x hx]
  have h4 := locShape_filter (composeLocation a.target c req)
    (fun kv => !(a.outputRemoveHeaders.any fun mm => mm (canonicalKey kv.1))) _ hp h3
  have h5 := locShape_addFold _ "Set-Cookie" a.outputAddCookies _ h4
  by_cases hlen : 0 < a.outputRemoveCookies.length
  · simp only [hlen, if_true]
    exact locShape_addFold _ "Set-Cookie" _ _ h5
  · simp only [hlen, if_false]
    exact h5

/-- The `Location` value ServeHTTP delivers on the redirect path, under
the two non-interference conditions on the configuration. -/
theorem delivered_location (a : RedirectErrors) (req : Request)
    (evs : List RespEvent) (c : Int) (m : String) (f : Bool)
    (hfix : fixedCode evs = some c)
    (hin : HTTPCodeRanges.Contains a.httpCodeRanges c = true)
    (hnoadd : ∀ kv ∈ a.outputAddHeaders, canonicalKey kv.1 ≠ "Location")
    (hnorem : ∀ mm ∈ a.outputRemoveHeaders, mm "Location" = false) :
    headerGet (deliveredHeader (serveHTTP a req evs (freshSink f m))) "Location"
      = composeLocation a.target c req := by
  obtain ⟨hm, hdel, _, _⟩ := serveHTTP_filtered_spec a req evs c m f hfix hin
  rw [hdel]
  exact composeRedirectHeader_location a req c hm [] hnoadd hnorem

/-- C3 counterexample: a configuration whose `outputAddHeaders` has no
`Location` key (it is empty) but whose `outputRemoveHeaders` holds the
pattern `^Location$`; on the claim's own concrete input (status 401,
request to http://localhost, the claim's target template) the delivered
`Location` is absent — the empty string — instead of the composed value
the claim promises. -/
theorem C3_counterexample_removed_location :
    headerGet (deliveredHeader (serveHTTP aRemoveLocation reqEx
        [RespEvent.writeHeader 401] (freshSink false "e"))) "Location" = "" ∧
    "" ≠ "http://target/?status=401&url=http%3A%2F%2Flocalhost" :=
  ⟨rfl, by decide⟩

/-- C3 (amended): on every redirect where no `outputAddHeaders` key
canonicalises to `Location` AND no `outputRemoveHeaders` pattern matches
the canonical name `Location`, the delivered `Location` equals the
configured target with `{status}` replaced by the decimal captured code
and `{url}` by the query-escaped reconstructed URL — regardless of any
`Location` the downstream handler set (the captured headers are
arbitrary).  The concrete instance of the claim is the witness below. -/
theorem C3_location_is_composed_target (a : RedirectErrors) (req : Request)
    (evs : List RespEvent) (c : Int) (m : String) (f : Bool)
    (hfix : fixedCode evs = some c)
    (hin : HTTPCodeRanges.Contains a.httpCodeRanges c = true)
    (hnoadd : ∀ kv ∈ a.outputAddHeaders, canonicalKey kv.1 ≠ "Location")
    (hnorem : ∀ mm ∈ a.outputRemoveHeaders, mm "Location" = false) :
    headerGet (deliveredHeader (serveHTTP a req evs (freshSink f m))) "Location"
      = replaceAll (replaceAll a.target "{status}" (itoa c)) "{url}"
          (queryEscape (reconstructURL req)) :=
  delivered_location a req evs c m f hfix hin hnoadd hnorem

/-- Witness for C3 (amended) at the claim's own example: target
`http://target/?status={status}&url={url}`, captured status 401, no
forwarded headers, request URL http://localhost, a downstream handler that
set its own `Location` — the delivered value is the claim's string. -/
theorem C3_location_is_composed_target_witness :
    headerGet (deliveredHeader (serveHTTP aEx reqEx
        [RespEvent.setHeader "Location" "http://downstream/", RespEvent.writeHeader 401]
        (freshSink false "e"))) "Location"
      = "http://target/?status=401&url=http%3A%2F%2Flocalhost" :=
  C3_location_is_composed_target aEx reqEx
    [RespEvent.setHeader "Location" "http://downstream/", RespEvent.writeHeader 401]
    401 "e" false (by rfl) (by rfl) (by simp [aEx]) (by simp [aEx])

/-- C4: the URL substituted for `{url}` is reconstructed from
X-Forwarded-Proto/X-Forwarded-Host when both are non-empty (scheme ++
"://" ++ host ++ original path-and-query) and falls back to the request's
own URL otherwise; in particular the claim's forwarded-header example
delivers `http://target/?return=https%3A%2F%2Fexample.com%2Fapi%2Ftest`. -/
theorem C4_url_reconstruction (a : RedirectErrors) (req : Request)
    (evs : List RespEvent) (c : Int) (m : String) (f : Bool)
    (hfix : fixedCode evs = some c)
    (hin : HTTPCodeRanges.Contains a.httpCodeRanges c = true)
    (hnoadd : ∀ kv ∈ a.outputAddHeaders, canonicalKey kv.1 ≠ "Location")
    (hnorem : ∀ mm ∈ a.outputRemoveHeaders, mm "Location" = false) :
    (req.xForwardedProto ≠ "" ∧ req.xForwardedHost ≠ "" →
      headerGet (deliveredHeader (serveHTTP a req evs (freshSink f m))) "Location"
        = replaceAll (replaceAll a.target "{status}" (itoa c)) "{url}"
            (queryEscape (req.xForwardedProto ++ "://" ++ req.xForwardedHost ++ req.requestURI))) ∧
    (¬(req.xForwardedProto ≠ "" ∧ req.xForwardedHost ≠ "") →
      headerGet (deliveredHeader (serveHTTP a req evs (freshSink f m))) "Location"
        = replaceAll (replaceAll a.target "{status}" (itoa c)) "{url}"
            (queryEscape req.urlString)) ∧
    headerGet (deliveredHeader (serveHTTP aFwd reqFwd [RespEvent.writeHeader 401]
        (freshSink false "x"))) "Location"
      = "http://target/?return=https%3A%2F%2Fexample.com%2Fapi%2Ftest" := by
  have hloc := delivered_location a req evs c m f hfix hin hnoadd hnorem
  refine ⟨?_, ?_, rfl⟩
  · intro hfwd
    rw [hloc]
    simp only [composeLocation, reconstructURL, if_pos hfwd]
  · intro hfwd
    rw [hloc]
    simp only [composeLocation, reconstructURL, if_neg hfwd]

/-- Witness for C4 at the claim's forwarded example (discharging the
forwarded-header branch) and at a plain request (fallback branch). -/
theorem C4_url_reconstruction_witness :
    headerGet (deliveredHeader (serveHTTP aFwd reqFwd [RespEvent.writeHeader 401]
        (freshSink false "x"))) "Location"
      = "http://target/?return=https%3A%2F%2Fexample.com%2Fapi%2Ftest" ∧
    headerGet (deliveredHeader (serveHTTP aEx reqEx [RespEvent.writeHeader 401]
        (freshSink false "x"))) "Location"
      = "http://target/?status=401&url=http%3A%2F%2Flocalhost" :=
  ⟨(C4_url_reconstruction aFwd reqFwd [RespEvent.writeHeader 401] 401 "x" false
      (by rfl) (by rfl) (by simp [aFwd]) (by simp [aFwd])).1
        (by refine ⟨?_, ?_⟩ <;> decide),
   (C4_url_reconstruction aEx reqEx [RespEvent.writeHeader 401] 401 "x" false
      (by rfl) (by rfl) (by simp [aEx]) (by simp [aEx])).2.1
        (by intro hcontra; exact absurd rfl hcontra.1)⟩

/-! ## Set-Cookie values through the pipeline -/

theorem headerValues_append (h1 h2 : Header) (k : String) :
    headerValues (h1 ++ h2) k = headerValues h1 k ++ headerValues h2 k := by
  simp [headerValues, List.filter_append]

theorem headerValues_const_key (k : String) (l : List String) :
    headerValues (l.map fun v => (k, v)) k = l := by
  induction l with
  | nil => rfl
  | cons v rest ih => simpa [headerValues, List.filter_cons] using ih

theorem buildDeletionCookiesAux_nil_ms (cookies : List (String × String))
    (removed : List String) : buildDeletionCookiesAux [] cookies removed = [] := by
  induction cookies generalizing removed with
  | nil => rfl
  | cons ck rest ih => simpa [buildDeletionCookiesAux] using ih removed

/-- On the redirect path, the delivered `Set-Cookie` values end with the
configured literal cookies followed by exactly the deletion directives
computed from the request cookies. -/
theorem composeRedirectHeader_setCookieValues (a : RedirectErrors) (req : Request)
    (c : Int) (captured : Header) (h : Header) :
    ∃ pre, headerValues (composeRedirectHeader a req c captured h) "Set-Cookie"
      = pre ++ a.outputAddCookies
          ++ buildDeletionCookies a.outputRemoveCookies req.cookies := by
  refine ⟨headerValues (removeHeadersStage a.outputRemoveHeaders
    (a.outputAddHeaders.foldl (fun acc kv => headerSet acc kv.1 kv.2)
      (headerSet (addAll h captured) "Location" (composeLocation a.target c req))))
    "Set-Cookie", ?_⟩
  simp only [composeRedirectHeader]
  by_cases hlen : 0 < a.outputRemoveCookies.length
  · rw [if_pos hlen, foldl_headerAdd_eq, foldl_headerAdd_eq, List.append_assoc,
      headerValues_append, headerValues_append, headerValues_const_key,
      headerValues_const_key, List.append_assoc]
  · rw [if_neg hlen, foldl_headerAdd_eq, headerValues_append, headerValues_const_key]
    have hms : a.outputRemoveCookies = [] := by
      cases hA : a.outputRemoveCookies with
      | nil => rfl
      | cons x xs => rw [hA] at hlen; simp at hlen
    rw [hms]
    simp [buildDeletionCookies, buildDeletionCookiesAux_nil_ms]

/-! ## The removal stage, characterised -/

/-- The values of any name after the removal pass: erased exactly when
some pattern matches the canonical name, untouched otherwise. -/
theorem removeHeadersStage_values (ms : List (String → Bool)) (h : Header) (k : String) :
    headerValues (removeHeadersStage ms h) k
      = if (ms.any fun mm => mm (canonicalKey k)) = true then []
        else headerValues h k := by
  induction h with
  | nil => simp [removeHeadersStage, headerValues]
  | cons kv t ih =>
    by_cases hk : (canonicalKey kv.1 == canonicalKey k) = true
    · have hkk : canonicalKey kv.1 = canonicalKey k := by simpa using hk
      by_cases hmatch : (ms.any fun mm => mm (canonicalKey k)) = true
      · rw [if_pos hmatch] at ih ⊢
        simpa [removeHeadersStage, List.filter_cons, hkk, hmatch] using ih
      · rw [if_neg hmatch] at ih ⊢
        have hmatch2 : (ms.any fun mm => mm (canonicalKey kv.1)) = false := by
          rw [hkk]
          exact Bool.not_eq_true _ ▸ (by simpa using hmatch)
        simp [removeHeadersStage, List.filter_cons, hmatch2, headerValues, hk] at ih ⊢
        exact ih
    · have hkb : (canonicalKey kv.1 == canonicalKey k) = false := by
        simpa using hk
      by_cases hdrop : (ms.any fun mm => mm (canonicalKey kv.1)) = true
      · simpa [removeHeadersStage, List.filter_cons, hdrop, headerValues, hkb] using ih
      · have hdrop2 : (ms.any fun mm => mm (canonicalKey kv.1)) = false := by
          simpa using hdrop
        simpa [removeHeadersStage, List.filter_cons, hdrop2, headerValues, hkb] using ih

/-- The removal pass is idempotent: a second pass changes nothing. -/
theorem removeHeadersStage_idem (ms : List (String → Bool)) (h : Header) :
    removeHeadersStage ms (removeHeadersStage ms h) = removeHeadersStage ms h := by
  induction h with
  | nil => rfl
  | cons kv t ih =>
    by_cases hdrop : (ms.any fun mm => mm (canonicalKey kv.1)) = true
    · simp only [removeHeadersStage, List.filter_cons, hdrop] at ih ⊢
      simp only [Bool.not_true, if_false] at ih ⊢
      exact ih
    · have hdrop2 : (ms.any fun mm => mm (canonicalKey kv.1)) = false := by
        simpa using hdrop
      simp only [removeHeadersStage, List.filter_cons, hdrop2] at ih ⊢
      simp [List.filter_cons, hdrop2, ih]

/-! ## Deletion directives, counted and reformulated -/

theorem deletionDirective_inj {a b : String}
    (h : deletionDirective a = deletionDirective b) : a = b := by
  have h2 := congrArg String.data h
  simp only [deletionDirective, String.data_append] at h2
  exact String.ext (List.append_cancel_right h2)

/-- Unfolding equation of the cookie-removal loop. -/
theorem buildDeletionCookiesAux_cons (ms : List (String → Bool))
    (ck : String × String) (rest : List (String × String)) (removed : List String) :
    buildDeletionCookiesAux ms (ck :: rest) removed
      = if (ms.any fun mm => mm ck.1) = true then
          (if removed.contains ck.1 = true then buildDeletionCookiesAux ms rest removed
           else deletionDirective ck.1 :: buildDeletionCookiesAux ms rest (ck.1 :: removed))
        else buildDeletionCookiesAux ms rest removed := by
  by_cases hm : (ms.any fun mm => mm ck.1) = true
  · rw [if_pos hm]
    by_cases hr : removed.contains ck.1 = true
    · have hmem : ck.1 ∈ removed := by simpa using hr
      rw [if_pos hr]
      simp [buildDeletionCookiesAux, hm, hmem]
    · have hnot : ck.1 ∉ removed := by simpa using hr
      rw [if_neg hr]
      simp [buildDeletionCookiesAux, hm, hnot]
  · have hmf : (ms.any fun mm => mm ck.1) = false := by simpa using hm
    rw [if_neg hm]
    simp [buildDeletionCookiesAux, hmf]

/-- How many deletion directives the cookie-removal loop emits for one
name: exactly one when the name occurs among the (remaining) request
cookies, matches some pattern and is not yet marked removed; none
otherwise — however many patterns match and however many request cookies
share the name. -/
theorem buildDeletionCookiesAux_count (ms : List (String → Bool)) (n : String) :
    ∀ (cookies : List (String × String)) (removed : List String),
      (buildDeletionCookiesAux ms cookies removed).count (deletionDirective n)
        = if ((cookies.any fun p => p.1 == n) && (ms.any fun mm => mm n)
              && !(removed.contains n)) = true then 1 else 0 := by
  intro cookies
  induction cookies with
  | nil => intro removed; simp [buildDeletionCookiesAux]
  | cons ck rest ih =>
    intro removed
    rw [buildDeletionCookiesAux_cons]
    simp only [List.any_cons]
    by_cases hn : ck.1 = n
    · have hbeq : (ck.1 == n) = true := by rw [hn]; simp
      by_cases hm : (ms.any fun mm => mm ck.1) = true
      · have hmn : (ms.any fun mm => mm n) = true := hn ▸ hm
        rw [if_pos hm]
        by_cases hr : removed.contains ck.1 = true
        · have hmem : n ∈ removed := by rw [← hn]; simpa using hr
          rw [if_pos hr, ih removed]
          simp [hbeq, hmn, hmem]
        · have hnot : n ∉ removed := by rw [← hn]; simpa using hr
          have hmem2 : n ∈ ck.1 :: removed := by simp [hn]
          rw [if_neg hr, List.count_cons, ih (ck.1 :: removed)]
          have hdd : (deletionDirective ck.1 == deletionDirective n) = true := by
            rw [hn]; simp
          simp [hbeq, hmn, hnot, hmem2, hdd]
      · have hmn : (ms.any fun mm => mm n) = false := by
          rw [← hn]; simpa using hm
        rw [if_neg hm, ih removed]
        simp [hmn]
    · have hne : (ck.1 == n) = false := beq_eq_false_iff_ne.mpr hn
      have hnsym : n ≠ ck.1 := Ne.symm hn
      by_cases hm : (ms.any fun mm => mm ck.1) = true
      · rw [if_pos hm]
        by_cases hr : removed.contains ck.1 = true
        · rw [if_pos hr, ih removed]
          exact if_congr (by rw [hne, Bool.false_or]) rfl rfl
        · have hddne : (deletionDirective ck.1 == deletionDirective n) = false :=
            beq_eq_false_iff_ne.mpr fun hc => hn (deletionDirective_inj hc)
          rw [if_neg hr, List.count_cons, ih (ck.1 :: removed), hddne]
          have hcont : ((ck.1 :: removed).contains n) = removed.contains n := by
            show ((n == ck.1) || removed.contains n) = removed.contains n
            rw [beq_eq_false_iff_ne.mpr hnsym, Bool.false_or]
          simp only [Bool.false_eq_true, if_false, Nat.add_zero]
          exact if_congr (by rw [hcont, hne, Bool.false_or]) rfl rfl
      · rw [if_neg hm, ih removed]
        exact if_congr (by rw [hne, Bool.false_or]) rfl rfl

/-- Unfolding equation of the first-occurrence deduplication. -/
theorem dedupFirstAux_cons (seen : List String) (x : String) (xs : List String) :
    dedupFirstAux seen (x :: xs)
      = if seen.contains x = true then dedupFirstAux seen xs
        else x :: dedupFirstAux (x :: seen) xs := by
  by_cases hs : seen.contains x = true
  · have hmem : x ∈ seen := by simpa using hs
    rw [if_pos hs]
    simp [dedupFirstAux, hmem]
  · have hnot : x ∉ seen := by simpa using hs
    rw [if_neg hs]
    simp [dedupFirstAux, hnot]

/-- The implementation's cookie-removal loop computes exactly the spec's
description: one deletion directive per distinct request-cookie name (in
first-occurrence order) that some removal pattern matches. -/
theorem buildDeletionCookiesAux_spec (ms : List (String → Bool)) :
    ∀ (cookies : List (String × String)) (removed seen : List String),
      (∀ nm, (ms.any fun mm => mm nm) = true →
        removed.contains nm = seen.contains nm) →
      buildDeletionCookiesAux ms cookies removed
        = (dedupFirstAux seen (cookies.map Prod.fst)).filterMap fun nm =>
            if (ms.any fun mm => mm nm) = true then some (deletionDirective nm)
            else none := by
  intro cookies
  induction cookies with
  | nil => intro removed seen _; rfl
  | cons ck rest ih =>
    intro removed seen hinv
    rw [buildDeletionCookiesAux_cons, List.map_cons, dedupFirstAux_cons]
    by_cases hm : (ms.any fun mm => mm ck.1) = true
    · rw [if_pos hm]
      have hrs : removed.contains ck.1 = seen.contains ck.1 := hinv ck.1 hm
      by_cases hs : seen.contains ck.1 = true
      · rw [if_pos hs, if_pos (hrs.trans hs)]
        exact ih removed seen hinv
      · rw [if_neg hs, if_neg (fun hc => hs (hrs ▸ hc))]
        simp only [List.filterMap_cons]
        rw [if_pos hm]
        refine congrArg (deletionDirective ck.1 :: ·) ?_
        refine ih (ck.1 :: removed) (ck.1 :: seen) ?_
        intro nm hmm2
        show ((nm == ck.1) || removed.contains nm) = ((nm == ck.1) || seen.contains nm)
        rw [hinv nm hmm2]
    · rw [if_neg hm]
      by_cases hs : seen.contains ck.1 = true
      · rw [if_pos hs]
        exact ih removed seen hinv
      · rw [if_neg hs]
        simp only [List.filterMap_cons]
        rw [if_neg hm]
        refine ih removed (ck.1 :: seen) ?_
        intro nm hmm2
        have hnmne : nm ≠ ck.1 := fun he => hm (he ▸ hmm2)
        show removed.contains nm = ((nm == ck.1) || seen.contains nm)
        rw [beq_eq_false_iff_ne.mpr hnmne, Bool.false_or]
        exact hinv nm hmm2

/-- C7: the dedup invariant of the two removal stages ServeHTTP runs on a
redirect response (`removeHeadersStage` is lines 134–143,
`buildDeletionCookies` is lines 151–170, both invoked by
`composeRedirectHeader`): (i) after the header pass a name's values are
erased exactly when some pattern matches its canonical form and untouched
otherwise; (ii) the pass is idempotent — a name is never double-processed;
(iii) each distinct request-cookie name matching at least one pattern
yields exactly one deletion directive, however many patterns match it and
however many request cookies share the name, and a name matching no
pattern yields none; (iv) the claim's authentik example. -/
theorem C7_removal_dedup_invariant :
    (∀ (ms : List (String → Bool)) (h : Header) (k : String),
      headerValues (removeHeadersStage ms h) k
        = if (ms.any fun mm => mm (canonicalKey k)) = true then []
          else headerValues h k) ∧
    (∀ (ms : List (String → Bool)) (h : Header),
      removeHeadersStage ms (removeHeadersStage ms h) = removeHeadersStage ms h) ∧
    (∀ (ms : List (String → Bool)) (cookies : List (String × String)) (n : String),
      (buildDeletionCookies ms cookies).count (deletionDirective n)
        = if ((cookies.any fun p => p.1 == n) && (ms.any fun mm => mm n)) = true
          then 1 else 0) ∧
    buildDeletionCookies [authentikMatcher] reqCookies.cookies
      = ["authentik_proxy_user=; Path=/; Max-Age=0; HttpOnly; Secure"] := by
  refine ⟨removeHeadersStage_values, removeHeadersStage_idem, ?_, rfl⟩
  intro ms cookies n
  rw [buildDeletionCookies, buildDeletionCookiesAux_count]
  exact if_congr
    (by rw [show (([] : List String).contains n) = false from rfl,
        Bool.not_false, Bool.and_true]) rfl rfl

/-- C8: the deletion directives are computed from the triggering request's
cookies (the capture's response headers play no role): they are exactly
one directive `name ++ "=; Path=/; Max-Age=0; HttpOnly; Secure"` per
distinct request-cookie name, in first-occurrence order, for the names on
which some removal pattern fires first (testing stops at the first
matching pattern — further patterns cannot change the outcome); and on the
redirect response the delivered `Set-Cookie` values end with exactly these
directives, after the configured literal cookies. -/
theorem C8_deletion_from_request_cookies (a : RedirectErrors) (req : Request)
    (evs : List RespEvent) (c : Int) (m : String) (f : Bool)
    (hfix : fixedCode evs = some c)
    (hin : HTTPCodeRanges.Contains a.httpCodeRanges c = true) :
    buildDeletionCookies a.outputRemoveCookies req.cookies
      = (dedupFirstAux [] (req.cookies.map Prod.fst)).filterMap (fun nm =>
          if (a.outputRemoveCookies.any fun mm => mm nm) = true
          then some (nm ++ "=; Path=/; Max-Age=0; HttpOnly; Secure") else none) ∧
    ∃ pre,
      headerValues (deliveredHeader (serveHTTP a req evs (freshSink f m))) "Set-Cookie"
        = pre ++ a.outputAddCookies
            ++ buildDeletionCookies a.outputRemoveCookies req.cookies := by
  constructor
  · exact buildDeletionCookiesAux_spec a.outputRemoveCookies req.cookies [] []
      fun _ _ => rfl
  · obtain ⟨hm, hdel, _, _⟩ := serveHTTP_filtered_spec a req evs c m f hfix hin
    rw [hdel]
    exact composeRedirectHeader_setCookieValues a req c hm []

/-- Witness for C8 at the authentik configuration, the claim's two request
cookies, and a handler fixing the filtered status 401. -/
theorem C8_deletion_from_request_cookies_witness :
    buildDeletionCookies aCookies.outputRemoveCookies reqCookies.cookies
      = (dedupFirstAux [] (reqCookies.cookies.map Prod.fst)).filterMap (fun nm =>
          if (aCookies.outputRemoveCookies.any fun mm => mm nm) = true
          then some (nm ++ "=; Path=/; Max-Age=0; HttpOnly; Secure") else none) ∧
    ∃ pre,
      headerValues (deliveredHeader (serveHTTP aCookies reqCookies
          [RespEvent.writeHeader 401] (freshSink false "e"))) "Set-Cookie"
        = pre ++ aCookies.outputAddCookies
            ++ buildDeletionCookies aCookies.outputRemoveCookies reqCookies.cookies :=
  C8_deletion_from_request_cookies aCookies reqCookies [RespEvent.writeHeader 401]
    401 "e" false (by rfl) (by rfl)

/-! ## Status-spec parsing, characterised -/

theorem splitOnDashAux_no_dash :
    ∀ l : List Char, (l.all fun c => !(c == '-')) = true →
      ∀ cur rest : List Char,
        splitOnDashAux cur (l ++ rest) = splitOnDashAux (l.reverse ++ cur) rest := by
  intro l
  induction l with
  | nil => intro _ cur rest; simp
  | cons c cs ih =>
    intro hall cur rest
    simp only [List.all_cons, Bool.and_eq_true] at hall
    have hc : (c == '-') = false := by simpa using hall.1
    show splitOnDashAux cur (c :: (cs ++ rest)) = _
    simp only [splitOnDashAux, hc]
    rw [ih hall.2 (c :: cur) rest]
    simp [List.reverse_cons, List.append_assoc]

theorem splitOnDash_single (l : List Char)
    (hl : (l.all fun c => !(c == '-')) = true) : splitOnDash l = [l] := by
  have h := splitOnDashAux_no_dash l hl [] []
  rw [List.append_nil] at h
  rw [splitOnDash, h]
  simp [splitOnDashAux]

theorem splitOnDash_pair (l : List Char)
    (hl : (l.all fun c => !(c == '-')) = true) :
    splitOnDash (l ++ '-' :: l) = [l, l] := by
  rw [splitOnDash, splitOnDashAux_no_dash l hl [] ('-' :: l)]
  show splitOnDashAux (l.reverse ++ []) ('-' :: l) = [l, l]
  simp only [splitOnDashAux, beq_self_eq_true, if_true]
  have h := splitOnDashAux_no_dash l hl [] []
  rw [List.append_nil] at h
  rw [h]
  simp [splitOnDashAux]

/-- C5: for every valid range-spec list, membership is true iff the code
lies inclusively inside at least one parsed interval; a dash-free
single-value spec parses to the degenerate interval (n, n), exactly as the
spec string with the value repeated around a dash does (so "N" behaves
identically to "N-N", witnessed concretely by "404" vs "404-404"); and the
empty spec list parses successfully to the set matching nothing. -/
theorem C5_contains_iff (specs : List String) (ranges : HTTPCodeRanges)
    (_valid : NewHTTPCodeRanges specs = Except.ok ranges) :
    (∀ code : Int, HTTPCodeRanges.Contains ranges code = true
        ↔ ∃ r ∈ ranges, r.1 ≤ code ∧ code ≤ r.2) ∧
    (∀ (b : String) (n : Int),
      (b.data.all fun c => !(c == '-')) = true → atoi b = some n →
      parseBlock b = some (n, n) ∧
      parseBlock (String.mk (b.data ++ '-' :: b.data)) = some (n, n)) ∧
    NewHTTPCodeRanges ["404"] = NewHTTPCodeRanges ["404-404"] ∧
    NewHTTPCodeRanges [] = Except.ok [] ∧
    (∀ code : Int, HTTPCodeRanges.Contains ([] : HTTPCodeRanges) code = false) := by
  refine ⟨?_, ?_, rfl, rfl, fun _ => rfl⟩
  · intro code
    simp [HTTPCodeRanges.Contains, List.any_eq_true, decide_eq_true_eq]
  · intro b n hnd hat
    constructor
    · unfold parseBlock
      rw [splitOnDash_single b.data hnd]
      show (atoi b).bind (fun k => some (k, k)) = some (n, n)
      rw [hat]
      rfl
    · unfold parseBlock
      rw [show (String.mk (b.data ++ '-' :: b.data)).data = b.data ++ '-' :: b.data from rfl,
        splitOnDash_pair b.data hnd]
      show (atoi b).bind (fun low => Option.map (fun high => (low, high)) (atoi b))
        = some (n, n)
      rw [hat]
      rfl

/-- Witness for C5 at the spec list `["200-202", "404"]` and the
single-code spec `"404"`. -/
theorem C5_contains_iff_witness :
    (HTTPCodeRanges.Contains [((200 : Int), (202 : Int)), (404, 404)] 404 = true
      ↔ ∃ r ∈ [((200 : Int), (202 : Int)), ((404 : Int), (404 : Int))],
          r.1 ≤ 404 ∧ (404 : Int) ≤ r.2) ∧
    parseBlock "404" = some (404, 404) :=
  ⟨(C5_contains_iff ["200-202", "404"] [(200, 202), (404, 404)] (by rfl)).1 404,
   ((C5_contains_iff ["200-202", "404"] [(200, 202), (404, 404)] (by rfl)).2.1
      "404" 404 (by rfl) (by rfl)).1⟩

/-! ## Construction success, characterised -/

theorem NewHTTPCodeRanges_isOk (l : List String) :
    (∃ rs, NewHTTPCodeRanges l = Except.ok rs)
      ↔ ∀ b ∈ l, (parseBlock b).isSome = true := by
  induction l with
  | nil => simp [NewHTTPCodeRanges]
  | cons b rest ih =>
    constructor
    · rintro ⟨rs, hrs⟩
      have hr : ∃ r, parseBlock b = some r := by
        cases hp : parseBlock b with
        | none =>
          simp only [NewHTTPCodeRanges, hp] at hrs
          exact Except.noConfusion hrs
        | some r => exact ⟨r, rfl⟩
      obtain ⟨r, hr⟩ := hr
      have hrec : ∃ rs2, NewHTTPCodeRanges rest = Except.ok rs2 := by
        cases hq : NewHTTPCodeRanges rest with
        | error e =>
          simp only [NewHTTPCodeRanges, hr, hq] at hrs
          exact Except.noConfusion hrs
        | ok rs2 => exact ⟨rs2, rfl⟩
      intro b2 hb2
      rcases List.mem_cons.mp hb2 with hbe | hbm
      · rw [hbe, hr]; rfl
      · exact ih.mp hrec b2 hbm
    · intro hall
      obtain ⟨rs2, hrec⟩ := ih.mpr fun b2 hb2 => hall b2 (List.mem_cons_of_mem _ hb2)
      obtain ⟨r, hr⟩ :=
        Option.isSome_iff_exists.mp (hall b (List.mem_cons_self _ _))
      exact ⟨r :: rs2, by simp only [NewHTTPCodeRanges, hr, hrec]⟩

theorem compileAll_isOk (compile : String → Option (String → Bool)) (msg : String)
    (l : List String) :
    (∃ res, compileAll compile msg l = Except.ok res)
      ↔ ∀ p ∈ l, (compile p).isSome = true := by
  induction l with
  | nil => simp [compileAll]
  | cons p rest ih =>
    constructor
    · rintro ⟨res, hres⟩
      have hp : ∃ re, compile p = some re := by
        cases hc : compile p with
        | none =>
          simp only [compileAll, hc] at hres
          exact Except.noConfusion hres
        | some re => exact ⟨re, rfl⟩
      obtain ⟨re, hre⟩ := hp
      have hrec : ∃ res2, compileAll compile msg rest = Except.ok res2 := by
        cases hq : compileAll compile msg rest with
        | error e =>
          simp only [compileAll, hre, hq] at hres
          exact Except.noConfusion hres
        | ok res2 => exact ⟨res2, rfl⟩
      intro p2 hp2
      rcases List.mem_cons.mp hp2 with hpe | hpm
      · rw [hpe, hre]; rfl
      · exact ih.mp hrec p2 hpm
    · intro hall
      obtain ⟨res2, hrec⟩ := ih.mpr fun p2 hp2 => hall p2 (List.mem_cons_of_mem _ hp2)
      obtain ⟨re, hre⟩ :=
        Option.isSome_iff_exists.mp (hall p (List.mem_cons_self _ _))
      exact ⟨re :: res2, by simp only [compileAll, hre, hrec]⟩

/-- C6: `New` succeeds — returning a handler and no error — exactly when
the target is non-empty, every status entry parses, and every pattern of
both removal lists compiles; equivalently, it returns a descriptive error
and no handler iff the target is empty or a status entry is malformed or a
pattern of either removal list is invalid. -/
theorem C6_construction_ok_iff (compile : String → Option (String → Bool))
    (cfg : Config) :
    (∃ a, New compile cfg = Except.ok a)
      ↔ (cfg.target ≠ "" ∧ (∀ b ∈ cfg.status, (parseBlock b).isSome = true) ∧
         (∀ p ∈ cfg.outputRemoveHeaders, (compile p).isSome = true) ∧
         (∀ p ∈ cfg.outputRemoveCookies, (compile p).isSome = true)) := by
  constructor
  · rintro ⟨a, ha⟩
    have ht : (cfg.target == "") = false := by
      cases hc : cfg.target == "" with
      | true => unfold New at ha; rw [if_pos hc] at ha; simp at ha
      | false => rfl
    have hranges : ∃ rs, NewHTTPCodeRanges cfg.status = Except.ok rs := by
      cases hq : NewHTTPCodeRanges cfg.status with
      | error e =>
        unfold New at ha
        rw [if_neg (by rw [ht]; exact Bool.false_ne_true), hq] at ha
        simp at ha
      | ok rs => exact ⟨rs, rfl⟩
    obtain ⟨rs, hrs⟩ := hranges
    have hheads : ∃ l1,
        compileAll compile "invalid regex pattern: " cfg.outputRemoveHeaders
          = Except.ok l1 := by
      cases hq : compileAll compile "invalid regex pattern: " cfg.outputRemoveHeaders with
      | error e =>
        unfold New at ha
        rw [if_neg (by rw [ht]; exact Bool.false_ne_true), hrs, hq] at ha
        simp at ha
      | ok l1 => exact ⟨l1, rfl⟩
    obtain ⟨l1, hl1⟩ := hheads
    have hcooks : ∃ l2,
        compileAll compile "invalid cookie regex pattern: " cfg.outputRemoveCookies
          = Except.ok l2 := by
      cases hq : compileAll compile "invalid cookie regex pattern: " cfg.outputRemoveCookies with
      | error e =>
        unfold New at ha
        rw [if_neg (by rw [ht]; exact Bool.false_ne_true), hrs, hl1, hq] at ha
        simp at ha
      | ok l2 => exact ⟨l2, rfl⟩
    obtain ⟨l2, hl2⟩ := hcooks
    exact ⟨by simpa using ht,
      (NewHTTPCodeRanges_isOk _).mp ⟨rs, hrs⟩,
      (compileAll_isOk _ _ _).mp ⟨l1, hl1⟩,
      (compileAll_isOk _ _ _).mp ⟨l2, hl2⟩⟩
  · rintro ⟨ht, hs, hrh, hrc⟩
    have hbt : (cfg.target == "") = false := beq_eq_false_iff_ne.mpr ht
    obtain ⟨rs, hrs⟩ := (NewHTTPCodeRanges_isOk _).mpr hs
    obtain ⟨l1, hl1⟩ := (compileAll_isOk compile "invalid regex pattern: " _).mpr hrh
    obtain ⟨l2, hl2⟩ :=
      (compileAll_isOk compile "invalid cookie regex pattern: " _).mpr hrc
    refine ⟨RedirectErrors.mk rs cfg.target cfg.outputStatus cfg.outputAddHeaders
      l1 cfg.outputAddCookies l2, ?_⟩
    unfold New
    rw [if_neg (by rw [hbt]; exact Bool.false_ne_true), hrs, hl1, hl2]

/-- C9 counterexample: the configuration `cfgZero` (OutputStatus = 0,
valid target and ranges) passes construction, and the redirect response
carries status 0 — not 302 as the claim states: `New` performs no
zero-defaulting, and the 302 default lives only in `CreateConfig`. -/
theorem C9_counterexample_zero_status :
    New compileNone cfgZero = Except.ok aZero ∧
    (serveHTTP aZero reqEx [RespEvent.writeHeader 401]
        (freshSink false "e")).status = some 0 ∧
    (0 : Int) ≠ 302 :=
  ⟨rfl, rfl, by decide⟩

/-- C9 (amended): the status written on the redirect path is exactly the
configured outputStatus, copied verbatim by `New`; the 302 default exists
only as `CreateConfig`'s initial value (so a configuration that never
overrides the field redirects with 302, but an explicit 0 is written as
0). -/
theorem C9_output_status_verbatim {compile : String → Option (String → Bool)}
    {cfg : Config} {a : RedirectErrors} (req : Request) (evs : List RespEvent)
    (c : Int) (m : String)
    (hnew : New compile cfg = Except.ok a)
    (hfix : fixedCode evs = some c)
    (hin : HTTPCodeRanges.Contains a.httpCodeRanges c = true) :
    (serveHTTP a req evs (freshSink false m)).status = some cfg.outputStatus ∧
    CreateConfig.outputStatus = 302 := by
  obtain ⟨hm, _, hstat, _⟩ := serveHTTP_filtered_spec a req evs c m false hfix hin
  exact ⟨by rw [hstat, (New_ok_fields hnew).1], rfl⟩

/-- Witness for C9 (amended): configured 0 delivers 0, and the
CreateConfig default reads 302. -/
theorem C9_output_status_verbatim_witness :
    (serveHTTP aZero reqEx [RespEvent.writeHeader 401]
        (freshSink false "e")).status = some 0 ∧
    CreateConfig.outputStatus = 302 :=
  @C9_output_status_verbatim compileNone cfgZero aZero
    reqEx [RespEvent.writeHeader 401] 401 "e" (by rfl) (by rfl) (by rfl)

/-- C10: the code's reaction to a failed body write.  With a transport
whose writes fail, ServeHTTP reaches the `http.Error(rw, err.Error(),
500)` call of lines 174–177 — visible in the nosniff header it sets — but
the status line was already committed by `rw.WriteHeader(302)` at line
172, and per the ResponseWriter contract only the first WriteHeader takes
effect: the response status stays 302, not a 500-class code.  The claim
describes the intended error report; the code cannot deliver it. -/
theorem C10_write_error_500_not_delivered :
    (serveHTTP aEx reqEx [RespEvent.writeHeader 401]
        (freshSink true "write failed")).status = some 302 ∧
    headerGet (serveHTTP aEx reqEx [RespEvent.writeHeader 401]
        (freshSink true "write failed")).header "X-Content-Type-Options" = "nosniff" ∧
    (serveHTTP aEx reqEx [RespEvent.writeHeader 401]
        (freshSink true "write failed")).body = "" ∧
    some (302 : Int) ≠ some (500 : Int) :=
  ⟨rfl, rfl, rfl, by decide⟩
